import Mathlib

/-
Verification development for the tab-visualizer repository (src/main.rs).

The embedding below translates the core audio-to-symbol pipeline of the
program into Lean definitions:

  - the key-offset lookup and tablature mapping (functions
    get_harmonica_key_semitone_offset, midi_to_tab, freq_to_midi,
    freq_to_midi_float in main.rs);
  - the level-metric computation over raw f32 windows (the filter-map /
    max / unwrap expression in update), with an explicit discrete model
    of f32 values that distinguishes NaN and the infinities;
  - the per-tick drain-and-accumulate loop of update (the tick-local
    1024-sample window), as a fold over the list of samples drained in
    one tick;
  - the per-window state transition of update (pitch acceptance, the
    position bookkeeping, the FIFO eviction of the trail buffer), with
    the external McLeod pitch detector abstracted as a parameter.

A Rust construct that aborts the process (the panic in the key lookup,
the unwrap of the iterator maximum) is modelled by an Option result
whose none case stands for the abort; f32 arithmetic on positions and
frequencies is idealised as real arithmetic, and the saturating
behaviour of the Rust float-to-u8 cast is modelled explicitly.
-/

set_option maxRecDepth 8000

namespace TabVisualizer

/-- Capacity of the trail buffer: const LINE_LENGTH in main.rs, used as the
capacity of the locations vector. -/
def LINE_LENGTH : Nat := 4096

/-- Size of one analysis window: the literal 1024 in the drain loop of
update in main.rs. -/
def WINDOW_SIZE : Nat := 1024

/-! ## A discrete model of f32 sample values

Only the aspects of f32 that the level-metric computation observes are
modelled: whether a value is NaN, the two infinities, and otherwise an
exact (rational) magnitude. -/

/-- A single-precision sample value, as observed by the level-metric code:
NaN, an infinity, or a finite value modelled exactly by a rational. -/
inductive F32 where
  | nan : F32
  | negInf : F32
  | posInf : F32
  | fin (q : ℚ) : F32
deriving DecidableEq

/-- Rust f32::abs: the absolute value; abs of NaN is NaN, abs of either
infinity is positive infinity. -/
def f32abs : F32 → F32
  | .nan => .nan
  | .negInf => .posInf
  | .posInf => .posInf
  | .fin q => .fin |q|

/-- ordered_float NotNan::new(x).ok(): some x for every non-NaN value,
none for NaN (the filter_map in update drops the none results). -/
def notnan_new (x : F32) : Option F32 :=
  if x = F32.nan then none else some x

/-- The total order on non-NaN f32 values used by Iterator::max through the
NotNan Ord instance: negInf below every finite value, posInf above.
The NaN cases are unreachable at the call site because NaN values were
filtered out; their result here is irrelevant. -/
def f32le : F32 → F32 → Bool
  | .negInf, _ => true
  | _, .negInf => false
  | _, .posInf => true
  | .posInf, _ => false
  | .fin a, .fin b => decide (a ≤ b)
  | .nan, _ => false
  | _, .nan => false

/-- Rust Iterator::max over a list of (non-NaN) f32 values: none on the
empty iterator, otherwise the maximum, preferring the later element on
ties, as a left fold. -/
def iter_max (l : List F32) : Option F32 :=
  l.foldl
    (fun acc x =>
      match acc with
      | none => some x
      | some a => some (if f32le a x then x else a))
    none

/-- The level-metric computation of update (main.rs lines 132-137):

  buf.iter().filter_map(|x| NotNan::new(x.abs()).ok()).max().unwrap()

The result none models the panic of the final unwrap, which fires exactly
when the iterator maximum does not exist, i.e. when every sample of the
window is NaN. -/
def current_level_calc (buf : List F32) : Option F32 :=
  iter_max (buf.filterMap (fun x => notnan_new (f32abs x)))

/-! ## The note mapper -/

/-- get_harmonica_key_semitone_offset in main.rs: the semitone offset of a
harmonica key name. The catch-all arm of the Rust match is panic!(),
which aborts the process; that arm is modelled by none. -/
def get_harmonica_key_semitone_offset (key : String) : Option Int :=
  match key with
  | "C" => some 0
  | "G" => some (-5)
  | "D" => some 2
  | "A" => some (-3)
  | "E" => some 4
  | "B" => some (-1)
  | "F#" => some 6
  | "Db" => some 1
  | "Ab" => some (-4)
  | "Eb" => some 3
  | "Bb" => some (-2)
  | "F" => some 5
  | "LF" => some (-7)
  | "LC" => some (-12)
  | "LD" => some (-10)
  | "HG" => some 7
  | _ => none

/-- midi_to_tab in main.rs. The midi argument is the u8 value produced by
freq_to_midi (so callers pass values in 0..=255, modelled here as an
integer). The key lookup inside the function panics on an unrecognized
key; that abort is modelled by none. Otherwise the function computes
index = midi - 60 - offset as a signed integer and returns the empty
string when index is outside 0..=len-1, and the table entry at index
when it is inside. -/
def midi_to_tab (midi : Int) (key : String) (notes_in_order : List String) :
    Option String :=
  match get_harmonica_key_semitone_offset key with
  | none => none
  | some offset =>
    let index : Int := midi - 60 - offset
    if h : index < 0 ∨ (notes_in_order.length : Int) - 1 < index then
      some ""
    else
      some (notes_in_order.get ⟨index.toNat, by push_neg at h; omega⟩)

/-- The saturating Rust cast from a (rounded, hence integral) float to u8:
values below 0 become 0, values above 255 become 255. NaN also casts
to 0; that case is handled at the freq_to_midi level. -/
def i_as_u8 (x : Int) : Int :=
  if x < 0 then 0 else if 255 < x then 255 else x

/-- freq_to_midi_float in main.rs: the continuous equal-tempered mapping
12 * log2(freq / 440) + 69, idealised over the reals. -/
noncomputable def freq_to_midi_float (freq : ℝ) : ℝ :=
  12 * Real.logb 2 (freq / 440) + 69

/-- freq_to_midi in main.rs:

  (12.0 * (freq / 440.0).log2() + 69.0).round() as u8

idealised over the reals. For freq = 0 the f32 log2 yields negative
infinity and for freq < 0 it yields NaN; the saturating u8 cast sends
both to 0, which the first branch models. For freq > 0 the rounded
value is cast to u8 with saturation. Rust rounds halves away from zero
while round here rounds halves up; the two composites with the
saturating cast agree on every real input, because the only halves
where they differ round to a negative value, which the cast clamps
to 0 either way. -/
noncomputable def freq_to_midi (freq : ℝ) : Int :=
  if freq ≤ 0 then 0
  else i_as_u8 (round (freq_to_midi_float freq))

/-! ## The trail buffer

Positions are the Vec3 values stored in the locations vector of the
model; f32 coordinates are idealised as reals. -/

/-- A 3D trail point (nannou Vec3, idealised over the reals). -/
structure Vec3 where
  x : ℝ
  y : ℝ
  z : ℝ

/-- Vec3::ZERO. -/
noncomputable def Vec3.zero : Vec3 := ⟨0, 0, 0⟩

/-- slice::rotate_left(1): the first element moves to the back. Every call
site guards the length (it equals LINE_LENGTH there), so the empty case
never arises. -/
def rotate1 {α : Type} (l : List α) : List α :=
  l.drop 1 ++ l.take 1

/-- One append to the trail buffer, exactly the eviction-then-push sequence
of update (main.rs lines 167-173) in the running state: when the vector
is at its capacity LINE_LENGTH, rotate_left(1) followed by pop removes
the oldest point, then the new point is pushed. -/
def trail_append {α : Type} (l : List α) (p : α) : List α :=
  (if l.length = LINE_LENGTH then (rotate1 l).dropLast else l) ++ [p]

/-- A sequence of appends to the trail buffer starting from the empty
buffer (the state after reset, or at startup). -/
def trail_run {α : Type} (ps : List α) : List α :=
  ps.foldl trail_append []

/-! ## The window accumulator (the drain loop of update)

Each update tick drains the relay into a tick-local vector buf of
capacity 1024; every full window is handed to the pitch detector and buf
is cleared. The fold below records, for the list of samples drained in
one tick, the windows handed over and the tick-local buffer contents.
The sample type is a parameter: the accumulation logic never inspects a
sample. -/

/-- The accumulation state of the drain loop in one tick: the tick-local
working buffer and the full windows extracted so far, oldest first. -/
structure TickAccum (α : Type) where
  buf : List α
  windows : List (List α)
deriving DecidableEq

/-- One iteration of the drain loop of update for one popped sample: push
it onto buf; if buf has reached WINDOW_SIZE, emit it as a window and
clear buf. -/
def drainStep {α : Type} (acc : TickAccum α) (s : α) : TickAccum α :=
  let buf := acc.buf ++ [s]
  if buf.length = WINDOW_SIZE then
    { buf := [], windows := acc.windows ++ [buf] }
  else
    { buf := buf, windows := acc.windows }

/-- The whole drain loop of one update tick over the list of samples
available in the relay that tick. buf starts empty because it is a
local variable of update, created anew every tick; whatever remains in
buf when the loop ends is dropped with it. -/
def processTick {α : Type} (samples : List α) : TickAccum α :=
  samples.foldl drainStep { buf := [], windows := [] }

/-- The windows extracted during one tick. -/
def tickWindows {α : Type} (samples : List α) : List (List α) :=
  (processTick samples).windows

/-- The windows extracted over a sequence of ticks, the sample stream
being split across the ticks as given. Each tick starts with an empty
tick-local buffer. -/
def multiTickWindows {α : Type} (ticks : List (List α)) : List (List α) :=
  (ticks.map tickWindows).flatten

/-! ## Per-window processing (the body of the drain loop on a full window)

The McLeod pitch detector is an external crate; it is abstracted as a
parameter detect from the window contents to an optional accepted
frequency (None models rejection by the power and clarity thresholds).
Samples are idealised as reals here; the NaN behaviour of the level
metric is analysed separately through current_level_calc. -/

/-- The settings and bounds consumed by the body of the drain loop. -/
structure Params where
  key : String
  tuning_notes : List String
  midi_low : ℝ
  midi_high : ℝ
  line_low : ℝ
  line_high : ℝ

/-- nannou map_range: linear interpolation of val from the range
in_min..in_max to the range out_min..out_max. -/
noncomputable def map_range (val in_min in_max out_min out_max : ℝ) : ℝ :=
  (val - in_min) / (in_max - in_min) * (out_max - out_min) + out_min

/-- The mutable state that the body of the drain loop reads and writes:
the trail buffer (locations), the running flag, the current note and
level, and the tick-tracked position new_pos. -/
structure UState where
  locations : List Vec3
  is_running : Bool
  current_note : String
  current_level : ℝ
  new_pos : Vec3

/-- The body of the drain loop of update on one full window w (main.rs
lines 131-176): recompute the level metric, run the detector; on an
accepted frequency set the running flag, move the horizontal position
to the mapped midi value and update the note; in every case advance
the vertical and depth coordinates by the fixed steps, evict the
oldest trail point if the buffer is at capacity, and append the new
position when running. The unwrap of the level metric cannot fire here
because w is a full (nonempty) window of non-NaN idealised samples; the
getD arms below are unreachable under that reading, and the NaN case is
analysed separately on current_level_calc. Likewise midi_to_tab is none
only on an unrecognized key, analysed separately. -/
noncomputable def windowStep (detect : List ℝ → Option ℝ) (P : Params)
    (st : UState) (w : List ℝ) : UState :=
  let level : ℝ := ((w.map (fun s => |s|)).max?).getD st.current_level
  let st1 : UState :=
    match detect w with
    | some f =>
      { st with
        is_running := true
        current_note := (midi_to_tab (freq_to_midi f) P.key P.tuning_notes).getD st.current_note
        new_pos :=
          { st.new_pos with
            x := map_range (freq_to_midi_float f) P.midi_low P.midi_high
              P.line_low P.line_high } }
    | none => st
  let pos2 : Vec3 :=
    { st1.new_pos with y := st1.new_pos.y - 0.1, z := st1.new_pos.z + 0.3 }
  let locs1 : List Vec3 :=
    if st1.locations.length = LINE_LENGTH then (rotate1 st1.locations).dropLast
    else st1.locations
  let locs2 : List Vec3 := if st1.is_running then locs1 ++ [pos2] else locs1
  { st1 with current_level := level, new_pos := pos2, locations := locs2 }

/-- Processing a sequence of full windows in order (the successive
iterations of the drain loop in which buf reaches WINDOW_SIZE). -/
noncomputable def runWindows (detect : List ℝ → Option ℝ) (P : Params)
    (st : UState) (ws : List (List ℝ)) : UState :=
  ws.foldl (windowStep detect P) st

/-! ## Theorems -/

/-- Claim C1. The claim states that looking up an unrecognized key name
produces a reportable configuration error returned to the caller and
does not terminate the process. The code contradicts it: the catch-all
arm of get_harmonica_key_semitone_offset is a panic, which aborts the
process, and every midi_to_tab call on such a key hits that panic. The
none results below are exactly that abort path, evaluated at the
unrecognized key name "X". -/
theorem C1_unrecognized_key_aborts :
    get_harmonica_key_semitone_offset "X" = none ∧
    midi_to_tab 60 "X" ["4"] = none := by
  exact ⟨rfl, rfl⟩

/-- Claim C5: for every MIDI note value, every recognized key (one whose
offset lookup succeeds) and every symbol table, midi_to_tab returns the
empty symbol exactly when index = midi - 60 - offset is negative or at
least the table length, and otherwise returns the table entry at
index (the getD default is never used under the in-range hypotheses).
The some wrapper records that no abort occurs on a recognized key. -/
theorem C5_midi_to_tab_bounds (midi : Int) (key : String) (off : Int)
    (table : List String)
    (hk : get_harmonica_key_semitone_offset key = some off) :
    ((midi - 60 - off < 0 ∨ (table.length : Int) ≤ midi - 60 - off) →
      midi_to_tab midi key table = some "") ∧
    (0 ≤ midi - 60 - off → midi - 60 - off < (table.length : Int) →
      midi_to_tab midi key table = some (table.getD (midi - 60 - off).toNat "")) := by
  simp only [midi_to_tab, hk]
  constructor
  · intro h
    rw [dif_pos]
    omega
  · intro h1 h2
    rw [dif_neg]
    · congr 1
      rw [List.getD_eq_getElem]
      · simp only [List.get_eq_getElem]
      · omega
    · omega

/-- Witness for C5 at both boundaries for key C (offset 0) and a two-entry
table: midi 59 gives index -1 (empty symbol), midi 62 gives
index 2 = length (empty symbol), midi 61 gives index 1 (the entry). -/
theorem C5_midi_to_tab_bounds_witness :
    midi_to_tab 59 "C" ["a", "b"] = some "" ∧
    midi_to_tab 62 "C" ["a", "b"] = some "" ∧
    midi_to_tab 61 "C" ["a", "b"] = some "b" := by
  refine ⟨?_, ?_, ?_⟩
  · exact (C5_midi_to_tab_bounds 59 "C" 0 ["a", "b"] rfl).1 (by decide)
  · exact (C5_midi_to_tab_bounds 62 "C" 0 ["a", "b"] rfl).1 (by decide)
  · exact (C5_midi_to_tab_bounds 61 "C" 0 ["a", "b"] rfl).2 (by decide) (by decide)

theorem filterMap_replicate_nan (n : Nat) :
    (List.replicate n F32.nan).filterMap (fun x => notnan_new (f32abs x)) = [] := by
  induction n with
  | zero => rfl
  | succ n ih => simp [List.replicate_succ, notnan_new, f32abs, ih]

theorem f32abs_ne_nan {s : F32} (h : s ≠ F32.nan) : f32abs s ≠ F32.nan := by
  cases s <;> simp_all [f32abs]

theorem foldl_max_some_isSome (xs : List F32) (a : F32) :
    (xs.foldl
      (fun acc x =>
        match acc with
        | none => some x
        | some a => some (if f32le a x then x else a))
      (some a)).isSome := by
  induction xs generalizing a with
  | nil => rfl
  | cons x xs ih => simpa [List.foldl_cons] using ih (if f32le a x then x else a)

theorem iter_max_isSome (l : List F32) (hl : l ≠ []) : (iter_max l).isSome := by
  cases l with
  | nil => exact absurd rfl hl
  | cons x xs => simpa [iter_max, List.foldl_cons] using foldl_max_some_isSome xs x

/-- Claim C2, counterexample. The claim states that processing any full
1024-sample window, with arbitrary f32 samples including NaN, is
defined and does not panic. The code contradicts it on the window
consisting of 1024 NaN samples: the filter_map drops every sample, the
iterator maximum is None, and the unwrap panics — modelled by the none
result of current_level_calc. -/
theorem C2_all_nan_window_panics :
    current_level_calc (List.replicate 1024 F32.nan) = none ∧
    (List.replicate 1024 F32.nan).length = 1024 := by
  constructor
  · unfold current_level_calc
    rw [filterMap_replicate_nan]
    rfl
  · rw [List.length_replicate]

/-- Claim C2 as amended: processing a full 1024-sample window neither
panics nor is undefined provided at least one sample of the window is
not NaN (infinities are allowed); the level-metric unwrap then has a
value. -/
theorem C2_level_metric_defined (buf : List F32) (_hlen : buf.length = 1024)
    (h : ∃ s ∈ buf, s ≠ F32.nan) : (current_level_calc buf).isSome := by
  obtain ⟨s, hs, hsn⟩ := h
  apply iter_max_isSome
  intro hemp
  have : f32abs s ∈ buf.filterMap (fun x => notnan_new (f32abs x)) := by
    rw [List.mem_filterMap]
    exact ⟨s, hs, by simp [notnan_new, f32abs_ne_nan hsn]⟩
  rw [hemp] at this
  exact absurd this (List.not_mem_nil _)

/-- Witness for the amended C2 on a concrete full window with a single
finite sample followed by 1023 NaN samples. -/
theorem C2_level_metric_defined_witness :
    (current_level_calc (F32.fin 1 :: List.replicate 1023 F32.nan)).isSome := by
  apply C2_level_metric_defined
  · rw [List.length_cons, List.length_replicate]
  · exact ⟨F32.fin 1, List.mem_cons_self (F32.fin 1) (List.replicate 1023 F32.nan),
      fun h => F32.noConfusion h⟩

/-- Claim C10: the frequency-to-MIDI conversion of the code (freq_to_midi,
including the rounding and the saturating u8 cast) is non-decreasing
over the positive frequencies. -/
theorem C10_freq_to_midi_monotone (f1 f2 : ℝ) (h1 : 0 < f1) (h12 : f1 ≤ f2) :
    freq_to_midi f1 ≤ freq_to_midi f2 := by
  have h2 : 0 < f2 := lt_of_lt_of_le h1 h12
  have hfloat : freq_to_midi_float f1 ≤ freq_to_midi_float f2 := by
    unfold freq_to_midi_float
    have hlog : Real.logb 2 (f1 / 440) ≤ Real.logb 2 (f2 / 440) :=
      Real.logb_le_logb_of_le (by norm_num) (by positivity) (by linarith)
    linarith
  have hround : round (freq_to_midi_float f1) ≤ round (freq_to_midi_float f2) := by
    rw [round_eq, round_eq]
    exact Int.floor_le_floor (by linarith)
  unfold freq_to_midi i_as_u8
  rw [if_neg (not_le.mpr h1), if_neg (not_le.mpr h2)]
  split_ifs <;> omega

/-- Witness for C10 at the concrete octave pair 440 Hz and 880 Hz. -/
theorem C10_freq_to_midi_monotone_witness :
    freq_to_midi 440 ≤ freq_to_midi 880 :=
  C10_freq_to_midi_monotone 440 880 (by norm_num) (by norm_num)

theorem logb_two_zpow (n : ℤ) : Real.logb 2 ((2 : ℝ) ^ n) = n := by
  rw [Real.logb, Real.log_zpow]
  have h2 : Real.log 2 ≠ 0 := ne_of_gt (Real.log_pos (by norm_num))
  field_simp

theorem freq_to_midi_float_at_octave (n : ℤ) :
    freq_to_midi_float (440 * (2 : ℝ) ^ n) = 12 * n + 69 := by
  unfold freq_to_midi_float
  rw [mul_comm (440 : ℝ), mul_div_assoc, div_self (by norm_num : (440 : ℝ) ≠ 0),
    mul_one, logb_two_zpow]

theorem midi_to_tab_oob (midi : Int) (key : String) (off : Int)
    (table : List String) (hk : get_harmonica_key_semitone_offset key = some off)
    (h : midi - 60 - off < 0 ∨ (table.length : Int) ≤ midi - 60 - off) :
    midi_to_tab midi key table = some "" := by
  simp only [midi_to_tab, hk]
  rw [dif_pos]
  omega

/-- Claim C4: the MIDI note number computed by the frequency-to-MIDI
conversion — the rounded value of the equal-tempered formula, line 359
of main.rs — may be negative (first conjunct, at an extreme low
frequency) and the value the function returns may exceed the valid
MIDI range of 0..=127 (second conjunct, at an extreme high frequency;
the saturating u8 cast clamps negative rounded values to 0 before the
consumer sees them, so the returned value itself is in 0..=255). The
consumer midi_to_tab treats every such out-of-range value as producing
the empty symbol through its index check, never as an error or abort
(third conjunct: any midi whose index falls outside the table yields
the empty symbol under a recognized key). -/
theorem C4_out_of_range_no_symbol :
    (∃ f : ℝ, 0 < f ∧ round (freq_to_midi_float f) < 0) ∧
    (∃ f : ℝ, 0 < f ∧ 127 < freq_to_midi f) ∧
    (∀ (midi : Int) (key : String) (off : Int) (table : List String),
      get_harmonica_key_semitone_offset key = some off →
      (midi - 60 - off < 0 ∨ (table.length : Int) ≤ midi - 60 - off) →
      midi_to_tab midi key table = some "") := by
  refine ⟨⟨440 * (2 : ℝ) ^ (-9 : ℤ), by positivity, ?_⟩,
    ⟨440 * (2 : ℝ) ^ (8 : ℤ), by positivity, ?_⟩,
    fun midi key off table hk h => midi_to_tab_oob midi key off table hk h⟩
  · rw [freq_to_midi_float_at_octave]
    rw [show (12 * ((-9 : ℤ) : ℝ) + 69) = ((-39 : ℤ) : ℝ) by norm_num, round_intCast]
    norm_num
  · have hpos : ¬(440 * (2 : ℝ) ^ (8 : ℤ) ≤ 0) := not_le.mpr (by positivity)
    unfold freq_to_midi
    rw [if_neg hpos, freq_to_midi_float_at_octave]
    rw [show (12 * ((8 : ℤ) : ℝ) + 69) = ((165 : ℤ) : ℝ) by norm_num, round_intCast]
    unfold i_as_u8
    norm_num

/-- Witness for C4: the out-of-range consumer conjunct evaluated at the
concrete saturated note value 165 for key C and a short table. -/
theorem C4_out_of_range_no_symbol_witness :
    midi_to_tab 165 "C" ["a", "b", "c"] = some "" :=
  C4_out_of_range_no_symbol.2.2 165 "C" 0 ["a", "b", "c"] rfl (by decide)

theorem rotate1_dropLast {α : Type} (l : List α) (h : l ≠ []) :
    (rotate1 l).dropLast = l.drop 1 := by
  cases l with
  | nil => exact absurd rfl h
  | cons x xs => simp [rotate1]

theorem trail_append_full {α : Type} (l : List α) (p : α)
    (h : l.length = LINE_LENGTH) : trail_append l p = l.drop 1 ++ [p] := by
  unfold trail_append
  rw [if_pos h, rotate1_dropLast]
  intro he
  rw [he] at h
  exact absurd h.symm (by simp [LINE_LENGTH])

theorem trail_append_not_full {α : Type} (l : List α) (p : α)
    (h : l.length ≠ LINE_LENGTH) : trail_append l p = l ++ [p] := by
  unfold trail_append
  rw [if_neg h]

theorem trail_run_eq_drop {α : Type} (ps : List α) :
    trail_run ps = ps.drop (ps.length - LINE_LENGTH) := by
  have hL : LINE_LENGTH = 4096 := rfl
  induction ps using List.reverseRecOn with
  | nil => simp [trail_run]
  | append_singleton ps p ih =>
    unfold trail_run at ih ⊢
    rw [List.foldl_concat, ih, List.length_append, List.length_singleton]
    by_cases hlen : LINE_LENGTH ≤ ps.length
    · have hfull : (ps.drop (ps.length - LINE_LENGTH)).length = LINE_LENGTH := by
        rw [List.length_drop]
        omega
      rw [trail_append_full _ p hfull, List.drop_drop]
      have hle : ps.length + 1 - LINE_LENGTH ≤ ps.length := by omega
      rw [List.drop_append_of_le_length hle]
      have hidx : ps.length - LINE_LENGTH + 1 = ps.length + 1 - LINE_LENGTH := by
        omega
      rw [hidx]
    · rw [trail_append_not_full _ p (by rw [List.length_drop]; omega)]
      have h0 : ps.length - LINE_LENGTH = 0 := by omega
      have h1 : ps.length + 1 - LINE_LENGTH = 0 := by omega
      rw [h0, h1, List.drop_zero, List.drop_zero]

theorem trail_run_length {α : Type} (ps : List α) :
    (trail_run ps).length = min ps.length LINE_LENGTH := by
  have hL : LINE_LENGTH = 4096 := rfl
  rw [trail_run_eq_drop, List.length_drop]
  omega

/-- Claim C6: appending LINE_LENGTH + k points (k at least 1) to the trail
buffer, starting from the empty buffer, leaves exactly LINE_LENGTH
points, and they are the most recent LINE_LENGTH points appended in
their original relative order (the first k points have been evicted,
oldest first); over every prefix of the appends the buffer length never
exceeds LINE_LENGTH. -/
theorem C6_trail_buffer_fifo {α : Type} (k : Nat) (ps : List α)
    (hk : 1 ≤ k) (hlen : ps.length = LINE_LENGTH + k) :
    trail_run ps = ps.drop k ∧
    (trail_run ps).length = LINE_LENGTH ∧
    (∀ n : Nat, (trail_run (ps.take n)).length ≤ LINE_LENGTH) := by
  have hL : LINE_LENGTH = 4096 := rfl
  have hidx : LINE_LENGTH + k - LINE_LENGTH = k := by omega
  refine ⟨?_, ?_, ?_⟩
  · rw [trail_run_eq_drop, hlen, hidx]
  · rw [trail_run_length, hlen]
    omega
  · intro n
    rw [trail_run_length]
    omega

/-- Witness for C6 with k = 1 and 4097 concrete points. -/
theorem C6_trail_buffer_fifo_witness :
    trail_run (List.replicate 4097 (0 : Int)) =
      (List.replicate 4097 (0 : Int)).drop 1 ∧
    (trail_run (List.replicate 4097 (0 : Int))).length = LINE_LENGTH := by
  have h := C6_trail_buffer_fifo 1 (List.replicate 4097 (0 : Int))
    (by norm_num) (by rw [List.length_replicate]; rfl)
  exact ⟨h.1, h.2.1⟩

theorem drain_loop_inv {α : Type} (xs : List α) :
    ∀ (b : List α) (ws : List (List α)), b.length < WINDOW_SIZE →
      (xs.foldl drainStep ⟨b, ws⟩).buf.length < WINDOW_SIZE ∧
      (xs.foldl drainStep ⟨b, ws⟩).windows.flatten
          ++ (xs.foldl drainStep ⟨b, ws⟩).buf
        = ws.flatten ++ b ++ xs ∧
      (xs.foldl drainStep ⟨b, ws⟩).buf.length
        = (b.length + xs.length) % WINDOW_SIZE ∧
      (xs.foldl drainStep ⟨b, ws⟩).windows.length
        = ws.length + (b.length + xs.length) / WINDOW_SIZE ∧
      (∀ w ∈ (xs.foldl drainStep ⟨b, ws⟩).windows,
        w ∈ ws ∨ w.length = WINDOW_SIZE) := by
  have hW : WINDOW_SIZE = 1024 := rfl
  induction xs with
  | nil =>
    intro b ws hb
    simp only [List.foldl_nil, List.length_nil]
    refine ⟨hb, by simp, ?_, ?_, fun w hw => Or.inl hw⟩
    · rw [hW] at hb ⊢
      omega
    · rw [hW] at hb ⊢
      omega
  | cons x xs ih =>
    intro b ws hb
    rw [List.foldl_cons]
    by_cases hfull : (b ++ [x]).length = WINDOW_SIZE
    · have hstep : drainStep ⟨b, ws⟩ x =
          ⟨[], ws ++ [b ++ [x]]⟩ := by
        simp only [drainStep]
        rw [if_pos hfull]
      rw [hstep]
      have hlen : b.length + 1 = WINDOW_SIZE := by
        simpa using hfull
      obtain ⟨i1, i2, i3, i4, i5⟩ :=
        ih [] (ws ++ [b ++ [x]]) (by rw [hW]; simp)
      refine ⟨i1, ?_, ?_, ?_, ?_⟩
      · rw [i2]
        simp [List.flatten_append, List.append_assoc]
      · rw [i3]
        simp only [List.length_nil, List.length_cons]
        rw [hW] at hlen ⊢
        omega
      · rw [i4]
        simp only [List.length_append, List.length_cons, List.length_nil,
          List.length_singleton]
        rw [hW] at hlen ⊢
        omega
      · intro w hw
        rcases i5 w hw with h | h
        · rcases List.mem_append.mp h with h2 | h2
          · exact Or.inl h2
          · right
            rw [List.mem_singleton.mp h2]
            exact hfull
        · exact Or.inr h
    · have hstep : drainStep ⟨b, ws⟩ x = ⟨b ++ [x], ws⟩ := by
        simp only [drainStep]
        rw [if_neg hfull]
      rw [hstep]
      have hlt : (b ++ [x]).length < WINDOW_SIZE := by
        simp only [List.length_append, List.length_singleton] at hfull ⊢
        rw [hW] at hfull hb ⊢
        omega
      obtain ⟨i1, i2, i3, i4, i5⟩ := ih (b ++ [x]) ws hlt
      refine ⟨i1, ?_, ?_, ?_, i5⟩
      · rw [i2]
        simp [List.append_assoc]
      · rw [i3]
        simp only [List.length_append, List.length_singleton, List.length_cons,
          List.length_nil]
        rw [hW]
        omega
      · rw [i4]
        simp only [List.length_append, List.length_singleton, List.length_cons,
          List.length_nil]
        rw [hW]
        omega

theorem processTick_spec {α : Type} (xs : List α) :
    (processTick xs).windows.flatten ++ (processTick xs).buf = xs ∧
    (∀ w ∈ (processTick xs).windows, w.length = WINDOW_SIZE) ∧
    (processTick xs).windows.length = xs.length / WINDOW_SIZE ∧
    (processTick xs).buf.length = xs.length % WINDOW_SIZE ∧
    (processTick xs).buf.length < WINDOW_SIZE := by
  obtain ⟨i1, i2, i3, i4, i5⟩ :=
    drain_loop_inv xs [] [] (by rw [show WINDOW_SIZE = 1024 from rfl]; simp)
  unfold processTick
  refine ⟨by simpa using i2, ?_, by simpa using i4, by simpa using i3, i1⟩
  intro w hw
  rcases i5 w hw with h | h
  · exact absurd h (List.not_mem_nil w)
  · exact h

theorem tickWindows_eq_nil_of_short {α : Type} (xs : List α)
    (h : xs.length < WINDOW_SIZE) : tickWindows xs = [] := by
  rw [← List.length_eq_zero]
  have hs := processTick_spec xs
  rw [tickWindows, hs.2.2.1, Nat.div_eq_of_lt h]

/-- Claim C3, counterexample. The claim states that samples of a partially
filled window accumulated during one update tick are retained and
carried into the extraction that fires when the window later reaches
1024 samples, for any split of the stream across ticks. The code
contradicts it: the working buffer is a local variable of update,
recreated empty every tick, so a partial window is discarded at the end
of its tick. Concretely, draining 1 sample in one tick and 1023 in the
next (1024 samples in total) extracts no window at all, and the second
tick ends with 1023 samples in its tick-local buffer, which the next
tick will not see. -/
theorem C3_partial_window_dropped :
    multiTickWindows [[(0 : ℚ)], List.replicate 1023 (0 : ℚ)] = [] ∧
    (processTick (List.replicate 1023 (0 : ℚ))).buf.length = 1023 := by
  have hW : WINDOW_SIZE = 1024 := rfl
  constructor
  · have e1 : tickWindows [(0 : ℚ)] = [] :=
      tickWindows_eq_nil_of_short _ (by rw [hW]; simp)
    have e2 : tickWindows (List.replicate 1023 (0 : ℚ)) = [] :=
      tickWindows_eq_nil_of_short _ (by rw [hW, List.length_replicate]; omega)
    unfold multiTickWindows
    rw [List.map_cons, List.map_cons, List.map_nil, e1, e2]
    rfl
  · have hs := processTick_spec (List.replicate 1023 (0 : ℚ))
    rw [hs.2.2.2.1, List.length_replicate]
    rfl

/-- Claim C3 as amended: within a single update tick every drained sample
is appended to the tick-local working window in order, and each sample
either ends up in an extracted window or remains in the tick-local
buffer; windows are extracted exactly per 1024 accumulated samples of
that tick; the samples remaining in a partially filled window at the
end of the tick (length mod 1024 of them) stay in the tick-local buffer
and are discarded with it when the tick ends — the working window does
not persist across ticks, so relay overflow is not the only point where
samples are lost. -/
theorem C3_tick_local_accumulation {α : Type} (xs : List α) :
    (processTick xs).windows.flatten ++ (processTick xs).buf = xs ∧
    (∀ w ∈ (processTick xs).windows, w.length = WINDOW_SIZE) ∧
    (processTick xs).windows.length = xs.length / WINDOW_SIZE ∧
    (processTick xs).buf.length = xs.length % WINDOW_SIZE := by
  have hs := processTick_spec xs
  exact ⟨hs.1, hs.2.1, hs.2.2.1, hs.2.2.2.1⟩

/-- Witness for the amended C3 on a concrete two-sample drain: both samples
are retained in the tick-local buffer, in order, with no window
extracted. -/
theorem C3_tick_local_accumulation_witness :
    (processTick [(1 : ℚ), 2]).windows.flatten
        ++ (processTick [(1 : ℚ), 2]).buf = [(1 : ℚ), 2] ∧
    (processTick [(1 : ℚ), 2]).windows.length = [(1 : ℚ), 2].length / WINDOW_SIZE := by
  have h := C3_tick_local_accumulation [(1 : ℚ), 2]
  exact ⟨h.1, h.2.2.1⟩

/-- Claim C8: in any one update tick, draining exactly 1024 samples
triggers exactly one extraction attempt and leaves the working window
empty afterwards, and draining 2 * 1024 - 1 samples also triggers
exactly one extraction attempt. -/
theorem C8_one_extraction_per_window {α : Type} (xs ys : List α)
    (h1 : xs.length = WINDOW_SIZE) (h2 : ys.length = 2 * WINDOW_SIZE - 1) :
    (processTick xs).windows.length = 1 ∧
    (processTick xs).buf = [] ∧
    (processTick ys).windows.length = 1 := by
  have hW : WINDOW_SIZE = 1024 := rfl
  have hx := processTick_spec xs
  have hy := processTick_spec ys
  refine ⟨?_, ?_, ?_⟩
  · rw [hx.2.2.1, h1, hW]
  · rw [← List.length_eq_zero, hx.2.2.2.1, h1, hW]
  · rw [hy.2.2.1, h2, hW]

/-- Witness for C8 on concrete sample lists of lengths 1024 and 2047. -/
theorem C8_one_extraction_per_window_witness :
    (processTick (List.replicate 1024 (0 : ℚ))).windows.length = 1 ∧
    (processTick (List.replicate 1024 (0 : ℚ))).buf = [] ∧
    (processTick (List.replicate 2047 (0 : ℚ))).windows.length = 1 :=
  C8_one_extraction_per_window _ _ (by rw [List.length_replicate]; rfl)
    (by rw [List.length_replicate]; rfl)

/-- Claim C9: for every processed window, the depth coordinate z advances
by the fixed step 0.3 and the vertical coordinate y decreases by the
fixed step 0.1, whether or not a pitch estimate was accepted; the
horizontal coordinate x holds its previous value when the detector
rejects the window, and moves to the mapped midi position exactly when
an estimate is accepted. -/
theorem C9_depth_and_drift (detect : List ℝ → Option ℝ) (P : Params)
    (st : UState) (w : List ℝ) :
    (windowStep detect P st w).new_pos.z = st.new_pos.z + 0.3 ∧
    (windowStep detect P st w).new_pos.y = st.new_pos.y - 0.1 ∧
    (detect w = none → (windowStep detect P st w).new_pos.x = st.new_pos.x) ∧
    (∀ f : ℝ, detect w = some f →
      (windowStep detect P st w).new_pos.x =
        map_range (freq_to_midi_float f) P.midi_low P.midi_high
          P.line_low P.line_high) := by
  cases hd : detect w with
  | none =>
    refine ⟨?_, ?_, fun _ => ?_, fun f hf => ?_⟩
    · simp [windowStep, hd]
    · simp [windowStep, hd]
    · simp [windowStep, hd]
    · exact absurd hf (by simp)
  | some f =>
    refine ⟨?_, ?_, fun hn => ?_, fun g hg => ?_⟩
    · simp [windowStep, hd]
    · simp [windowStep, hd]
    · exact absurd hn (by simp)
    · obtain rfl := Option.some_injective _ hg
      simp [windowStep, hd]

/-- Witness for C9 on a concrete rejected window: depth advances and the
horizontal coordinate is held. -/
theorem C9_depth_and_drift_witness :
    (windowStep (fun _ => none) ⟨"C", ["4"], 48, 103, -8, 8⟩
        ⟨[], false, "4", 0, ⟨1, 2, 3⟩⟩ [(0 : ℝ)]).new_pos.z = 3 + 0.3 ∧
    (windowStep (fun _ => none) ⟨"C", ["4"], 48, 103, -8, 8⟩
        ⟨[], false, "4", 0, ⟨1, 2, 3⟩⟩ [(0 : ℝ)]).new_pos.x = 1 := by
  have h := C9_depth_and_drift (fun _ => none) ⟨"C", ["4"], 48, 103, -8, 8⟩
    ⟨[], false, "4", 0, ⟨1, 2, 3⟩⟩ [(0 : ℝ)]
  exact ⟨h.1, h.2.2.1 rfl⟩

theorem windowStep_idle_step (detect : List ℝ → Option ℝ) (P : Params)
    (st : UState) (w : List ℝ) (h1 : st.is_running = false)
    (h2 : st.locations = []) (hw : detect w = none) :
    (windowStep detect P st w).is_running = false ∧
    (windowStep detect P st w).locations = [] := by
  simp only [windowStep, hw]
  refine ⟨h1, ?_⟩
  rw [h1, h2]
  simp [LINE_LENGTH]

theorem windowStep_append_of_running (detect : List ℝ → Option ℝ)
    (P : Params) (st : UState) (w : List ℝ)
    (h : (match detect w with
          | some _ => true
          | none => st.is_running) = true) :
    (windowStep detect P st w).is_running = true ∧
    (windowStep detect P st w).locations =
      trail_append st.locations (windowStep detect P st w).new_pos := by
  cases hd : detect w with
  | none =>
    rw [hd] at h
    have h2 : st.is_running = true := by simpa using h
    simp [windowStep, hd, trail_append, h2]
  | some f =>
    simp [windowStep, hd, trail_append]

/-- Claim C7: after a reset (empty trail, running flag cleared), processing
any sequence of windows that the detector all rejects appends no trail
point and leaves the state idle (first conjunct); the first accepted
estimate — and nothing else — switches the state to running and appends
a point (second conjunct, with the empty-trail instantiation giving
exactly one appended point); once running, every processed window
appends exactly one point through the eviction-then-push sequence,
whether or not its pitch was accepted (third conjunct). -/
theorem C7_idle_until_first_pitch (detect : List ℝ → Option ℝ) (P : Params) :
    (∀ (ws : List (List ℝ)) (st : UState), st.is_running = false →
      st.locations = [] → (∀ w ∈ ws, detect w = none) →
      (runWindows detect P st ws).is_running = false ∧
      (runWindows detect P st ws).locations = []) ∧
    (∀ (st : UState) (w : List ℝ) (f : ℝ), st.is_running = false →
      detect w = some f →
      (windowStep detect P st w).is_running = true ∧
      (windowStep detect P st w).locations =
        trail_append st.locations (windowStep detect P st w).new_pos) ∧
    (∀ (st : UState) (w : List ℝ), st.is_running = true →
      (windowStep detect P st w).is_running = true ∧
      (windowStep detect P st w).locations =
        trail_append st.locations (windowStep detect P st w).new_pos) := by
  refine ⟨?_, ?_, ?_⟩
  · intro ws
    induction ws with
    | nil =>
      intro st h1 h2 _
      exact ⟨h1, h2⟩
    | cons w ws ih =>
      intro st h1 h2 hall
      have hw : detect w = none := hall w (List.mem_cons_self w ws)
      have hstep := windowStep_idle_step detect P st w h1 h2 hw
      unfold runWindows at ih ⊢
      rw [List.foldl_cons]
      exact ih (windowStep detect P st w) hstep.1 hstep.2
        (fun v hv => hall v (List.mem_cons_of_mem w hv))
  · intro st w f _ hf
    apply windowStep_append_of_running detect P st w
    rw [hf]
  · intro st w hrun
    apply windowStep_append_of_running detect P st w
    cases hd : detect w with
    | none => simpa using hrun
    | some f => rfl

/-- Witness for C7: from the reset state, one rejected window appends
nothing and stays idle, while an accepted window sets the running
flag. -/
theorem C7_idle_until_first_pitch_witness :
    (runWindows (fun v => match v with | [] => some 1 | _ => none)
        ⟨"C", ["4"], 48, 103, -8, 8⟩ ⟨[], false, "4", 0, ⟨0, 0, 0⟩⟩
        [[(0 : ℝ)]]).locations = [] ∧
    (windowStep (fun v => match v with | [] => some 1 | _ => none)
        ⟨"C", ["4"], 48, 103, -8, 8⟩ ⟨[], false, "4", 0, ⟨0, 0, 0⟩⟩
        []).is_running = true := by
  have h := C7_idle_until_first_pitch
    (fun v => match v with | [] => some 1 | _ => none)
    ⟨"C", ["4"], 48, 103, -8, 8⟩
  refine ⟨(h.1 [[(0 : ℝ)]] ⟨[], false, "4", 0, ⟨0, 0, 0⟩⟩ rfl rfl ?_).2,
    (h.2.1 ⟨[], false, "4", 0, ⟨0, 0, 0⟩⟩ [] 1 rfl rfl).1⟩
  intro v hv
  rw [List.mem_singleton.mp hv]

end TabVisualizer
